import Mathlib

/-!
# Verification of the bump-allocator core of `allocator-suite`

Shallow embedding of `src/allocators/bump_allocator.rs` and
`src/extensions/non_zero_u32_ext.rs`. Memory addresses are modelled as
natural numbers bounded by the addressable range (`usize` is 64 bits);
sizes and alignments are naturals (the non-zero contracts appear as
hypotheses where they matter). The allocator's `Cell` state is modelled
by explicit state passing: each operation returns its result together
with the post-state; a Rust early `return Err(AllocError)` is modelled
as returning `none` together with whatever state had already been
mutated at that point, which reproduces the source's evaluation order
exactly.
-/

/-- The number of distinct `usize` values: addresses live in `[0, USIZE)`. -/
def USIZE : Nat := 2 ^ 64

/-- Modelled from the spec: `MemoryAddress.round_up_to_power_of_two`
(`memory_address.rs` is not under `src/`). Spec section 3: round the address
up to a power-of-two boundary, i.e. to the smallest multiple of the
(power-of-two, non-zero) alignment that is greater than or equal to it. -/
def roundUpToPowerOfTwo (a align : Nat) : Nat :=
  (a + align - 1) / align * align

/-- Modelled from the spec: `MemoryAddress.checked_add`
(`memory_address.rs` is not under `src/`). Spec sections 3 and 4.1: checked
addition that signals "no value" instead of silently wrapping when the sum
would leave the addressable range. -/
def checkedAdd (a size : Nat) : Option Nat :=
  if a + size < USIZE then some (a + size) else none

/-- State of `BumpAllocator` (bump_allocator.rs lines 29-36). The
`memory_source` field carries no state relevant to the algorithm and is
elided; `memory_source_size` is kept because `allocations_start_from` and
`Drop` read it. -/
structure BumpAllocator where
  most_recent_allocation_pointer : Nat
  next_allocation_at_pointer : Nat
  ends_at_pointer : Nat
  memory_source_size : Nat
  deriving DecidableEq, Repr

/-- The `allocation_ends_at_pointer!` macro (bump_allocator.rs lines 46-71):
checked add of `size` to `allocation_from`; `none` models the early
`return Err(AllocError)` taken when the addition overflows (the transmuted
pointer is null) or when the end exceeds `ends_at_pointer`. -/
def allocation_ends_at_pointer (s : BumpAllocator) (size allocation_from : Nat) :
    Option Nat :=
  match checkedAdd allocation_from size with
  | none => none
  | some p => if p > s.ends_at_pointer then none else some p

/-- `BumpAllocator::allocate` (bump_allocator.rs lines 74-102). Returns the
result and the post-state. Faithful to the source's order of effects:
`most_recent_allocation_pointer` is set to the rounded-up cursor BEFORE the
argument of `next_allocation_at_pointer.set(...)` is evaluated, so the early
`return Err` inside the macro leaves that first mutation in place. -/
def BumpAllocator.allocate (s : BumpAllocator)
    (non_zero_size non_zero_power_of_two_alignment : Nat) :
    Option Nat × BumpAllocator :=
  let next_allocation_at_rounded_up_pointer :=
    roundUpToPowerOfTwo s.next_allocation_at_pointer non_zero_power_of_two_alignment
  let s1 := { s with
    most_recent_allocation_pointer := next_allocation_at_rounded_up_pointer }
  match allocation_ends_at_pointer s1 non_zero_size
      next_allocation_at_rounded_up_pointer with
  | none => (none, s1)
  | some e =>
    (some next_allocation_at_rounded_up_pointer,
      { s1 with next_allocation_at_pointer := e })

/-- `BumpAllocator::deallocate` (bump_allocator.rs lines 104-115). The size
and alignment parameters are received but unused, as in the source. -/
def BumpAllocator.deallocate (s : BumpAllocator)
    (_non_zero_size _non_zero_power_of_two_alignment current_memory : Nat) :
    BumpAllocator :=
  if current_memory = s.most_recent_allocation_pointer then
    { s with next_allocation_at_pointer := s.most_recent_allocation_pointer }
  else s

/-- `BumpAllocator::shrinking_reallocate` (bump_allocator.rs lines 117-132).
`MemoryAddress.add` (not under `src/`) is modelled from the spec as plain
address addition with no overflow or bound check. Always returns
`some current_memory`. -/
def BumpAllocator.shrinking_reallocate (s : BumpAllocator)
    (non_zero_new_size _non_zero_power_of_two_alignment _non_zero_current_size
      current_memory : Nat) :
    Option Nat × BumpAllocator :=
  if current_memory = s.most_recent_allocation_pointer then
    (some current_memory,
      { s with next_allocation_at_pointer := current_memory + non_zero_new_size })
  else (some current_memory, s)

/-- `BumpAllocator::growing_reallocate` (bump_allocator.rs lines 134-161).
The in-place branch re-checks bounds via the macro and mutates nothing on
failure; the non-in-place branch delegates to `allocate` (whose partial
mutation on failure is preserved) and propagates its error (the transmuted
`Err` is the null pointer). The `copy_from` of `current_size` bytes is a
memory effect outside the allocator state and is not modelled. -/
def BumpAllocator.growing_reallocate (s : BumpAllocator)
    (non_zero_new_size non_zero_power_of_two_alignment _non_zero_current_size
      current_memory : Nat) :
    Option Nat × BumpAllocator :=
  if current_memory = s.most_recent_allocation_pointer then
    match allocation_ends_at_pointer s non_zero_new_size current_memory with
    | none => (none, s)
    | some e => (some current_memory, { s with next_allocation_at_pointer := e })
  else
    match s.allocate non_zero_new_size non_zero_power_of_two_alignment with
    | (none, s1) => (none, s1)
    | (some p, s1) => (some p, s1)

/-- `BumpAllocator::new` (bump_allocator.rs lines 176-189), after a
successful `memory_source.obtain(memory_source_size)` returned
`allocations_start_from`. Both pointers start at the obtained address and
`ends_at_pointer` is fixed to start plus size (`MemoryAddress.add_non_zero`,
not under `src/`, modelled from the spec as plain addition). -/
def BumpAllocator.new (allocations_start_from memory_source_size : Nat) :
    BumpAllocator :=
  { most_recent_allocation_pointer := allocations_start_from
    next_allocation_at_pointer := allocations_start_from
    ends_at_pointer := allocations_start_from + memory_source_size
    memory_source_size := memory_source_size }

/-- `BumpAllocator::allocations_start_from` (bump_allocator.rs lines 191-194):
`ends_at_pointer - memory_source_size` (`MemoryAddress.subtract_non_zero`,
not under `src/`, modelled from the spec as subtraction). -/
def BumpAllocator.allocations_start_from (s : BumpAllocator) : Nat :=
  s.ends_at_pointer - s.memory_source_size

/-- `Drop for BumpAllocator` (bump_allocator.rs lines 38-44): the single
`release` call made at destruction, as its argument pair
(size, start address). -/
def BumpAllocator.drop_release_args (s : BumpAllocator) : Nat × Nat :=
  (s.memory_source_size, s.allocations_start_from)

/-- Double `p` until it reaches `a`, for at most `fuel` rounds. -/
def nextPow2Aux : Nat → Nat → Nat → Nat
  | 0, _, p => p
  | fuel + 1, a, p => if a ≤ p then p else nextPow2Aux fuel a (2 * p)

/-- `u32::next_power_of_two` as called by
`NonZeroU32Ext::next_power_of_two` (non_zero_u32_ext.rs lines 19-23), with
the standard library's release-mode semantics: the smallest power of two
greater than or equal to the argument, wrapped modulo 2^32 (so any argument
above 2^31 yields 0; in a 32-bit word the carry out of the top bit is
lost). 32 doubling rounds starting from 1 cover the whole u32 range. -/
def u32_next_power_of_two (a : Nat) : Nat :=
  nextPow2Aux 32 a 1 % 2 ^ 32

/-- `NonZeroU32Ext::next_power_of_two` (non_zero_u32_ext.rs lines 19-23):
delegates to `u32::next_power_of_two` on the wrapped value. -/
def next_power_of_two (a : Nat) : Nat :=
  u32_next_power_of_two a

/-- One allocator call, for reasoning about call sequences. -/
inductive Op where
  | allocate (size align : Nat)
  | deallocate (size align addr : Nat)
  | shrinking (new_size align current_size addr : Nat)
  | growing (new_size align current_size addr : Nat)
  deriving DecidableEq, Repr

/-- The state transition of one call (results discarded). -/
def step (s : BumpAllocator) : Op → BumpAllocator
  | .allocate size align => (s.allocate size align).2
  | .deallocate size align addr => s.deallocate size align addr
  | .shrinking ns al cs addr => (s.shrinking_reallocate ns al cs addr).2
  | .growing ns al cs addr => (s.growing_reallocate ns al cs addr).2

/-- Run a sequence of calls. -/
def run (s : BumpAllocator) (ops : List Op) : BumpAllocator :=
  ops.foldl step s

/-- Spec section 3, invariants 1 and 2 on an allocator state. -/
def StateInv (s : BumpAllocator) : Prop :=
  s.allocations_start_from ≤ s.next_allocation_at_pointer ∧
  s.next_allocation_at_pointer ≤ s.ends_at_pointer ∧
  s.allocations_start_from ≤ s.most_recent_allocation_pointer ∧
  s.most_recent_allocation_pointer ≤ s.next_allocation_at_pointer

instance (s : BumpAllocator) : Decidable (StateInv s) := by
  unfold StateInv; infer_instance

/-- Spec sections 4.3 and 6: every call carries a non-zero size and a
non-zero power-of-two alignment of at most 4096. -/
def SpecSizeAlign (size align : Nat) : Prop :=
  0 < size ∧ (∃ k, align = 2 ^ k) ∧ align ≤ 4096

/-- The spec's precondition of one call in state `s`. For
`shrinking_reallocate` the spec (section 4.3) describes resizing an
allocation currently spanning `current_size` bytes down to `new_size`;
for the most recent allocation that span reaches exactly to the cursor. -/
def PreOp (s : BumpAllocator) : Op → Prop
  | .allocate size align => SpecSizeAlign size align
  | .deallocate size align _ => SpecSizeAlign size align
  | .shrinking ns al cs addr =>
      SpecSizeAlign ns al ∧ ns ≤ cs ∧
      (addr = s.most_recent_allocation_pointer →
        addr + cs = s.next_allocation_at_pointer)
  | .growing ns al _ _ => SpecSizeAlign ns al

/-- A call that both meets the spec's precondition and does not return
`AllocationError`. -/
def ValidOp (s : BumpAllocator) (op : Op) : Prop :=
  PreOp s op ∧
  match op with
  | .allocate size align => ((s.allocate size align).1).isSome = true
  | .growing ns al cs addr =>
      ((s.growing_reallocate ns al cs addr).1).isSome = true
  | _ => True

/-- A call sequence meeting the spec's preconditions call by call. -/
inductive PreTrace : BumpAllocator → List Op → Prop where
  | nil (s : BumpAllocator) : PreTrace s []
  | cons {s : BumpAllocator} {op : Op} {ops : List Op} :
      PreOp s op → PreTrace (step s op) ops → PreTrace s (op :: ops)

/-- A call sequence meeting the spec's preconditions in which every
`allocate` and `growing_reallocate` succeeds. -/
inductive ValidTrace : BumpAllocator → List Op → Prop where
  | nil (s : BumpAllocator) : ValidTrace s []
  | cons {s : BumpAllocator} {op : Op} {ops : List Op} :
      ValidOp s op → ValidTrace (step s op) ops → ValidTrace s (op :: ops)

/-- Run a list of `allocate` calls, each given as (size, alignment),
collecting the returned (address, size) pairs; `none` as soon as one call
fails. -/
def allocate_all (s : BumpAllocator) :
    List (Nat × Nat) → Option (List (Nat × Nat) × BumpAllocator)
  | [] => some ([], s)
  | (size, align) :: rest =>
    match s.allocate size align with
    | (none, _) => none
    | (some addr, s1) =>
      match allocate_all s1 rest with
      | none => none
      | some (pairs, s2) => some ((addr, size) :: pairs, s2)

/-! ## Helper lemmas -/

theorem le_roundUpToPowerOfTwo (a : Nat) {align : Nat} (h : 0 < align) :
    a ≤ roundUpToPowerOfTwo a align := by
  unfold roundUpToPowerOfTwo
  by_contra hc
  push_neg at hc
  have hd : ((a + align - 1) / align + 1) * align
      = (a + align - 1) / align * align + align := by ring
  have h2 : ((a + align - 1) / align + 1) * align ≤ a + align - 1 := by omega
  have h3 := (Nat.le_div_iff_mul_le h).2 h2
  omega

theorem dvd_roundUpToPowerOfTwo (a align : Nat) :
    align ∣ roundUpToPowerOfTwo a align := by
  unfold roundUpToPowerOfTwo
  exact dvd_mul_left align _

theorem allocate_of_success (s : BumpAllocator) (size align : Nat)
    (h1 : roundUpToPowerOfTwo s.next_allocation_at_pointer align + size < USIZE)
    (h2 : roundUpToPowerOfTwo s.next_allocation_at_pointer align + size ≤
      s.ends_at_pointer) :
    s.allocate size align =
      (some (roundUpToPowerOfTwo s.next_allocation_at_pointer align),
       { s with
          most_recent_allocation_pointer :=
            roundUpToPowerOfTwo s.next_allocation_at_pointer align
          next_allocation_at_pointer :=
            roundUpToPowerOfTwo s.next_allocation_at_pointer align + size }) := by
  simp [BumpAllocator.allocate, allocation_ends_at_pointer, checkedAdd, h1,
    Nat.not_lt.2 h2]

theorem allocate_of_fail (s : BumpAllocator) (size align : Nat)
    (h : USIZE ≤ roundUpToPowerOfTwo s.next_allocation_at_pointer align + size ∨
      s.ends_at_pointer <
        roundUpToPowerOfTwo s.next_allocation_at_pointer align + size) :
    s.allocate size align =
      (none,
       { s with
          most_recent_allocation_pointer :=
            roundUpToPowerOfTwo s.next_allocation_at_pointer align }) := by
  rcases h with h | h
  · simp [BumpAllocator.allocate, allocation_ends_at_pointer, checkedAdd,
      Nat.not_lt.2 h]
  · rcases Nat.lt_or_ge
      (roundUpToPowerOfTwo s.next_allocation_at_pointer align + size) USIZE with
      hlt | hge
    · simp [BumpAllocator.allocate, allocation_ends_at_pointer, checkedAdd,
        hlt, h]
    · simp [BumpAllocator.allocate, allocation_ends_at_pointer, checkedAdd,
        Nat.not_lt.2 hge]

theorem allocate_isSome_iff (s : BumpAllocator) (size align : Nat) :
    ((s.allocate size align).1).isSome = true ↔
    roundUpToPowerOfTwo s.next_allocation_at_pointer align + size < USIZE ∧
    roundUpToPowerOfTwo s.next_allocation_at_pointer align + size ≤
      s.ends_at_pointer := by
  constructor
  · intro hs
    by_contra hc
    rw [Decidable.not_and_iff_or_not] at hc
    have : s.allocate size align =
        (none,
         { s with
            most_recent_allocation_pointer :=
              roundUpToPowerOfTwo s.next_allocation_at_pointer align }) := by
      apply allocate_of_fail
      omega
    rw [this] at hs
    simp at hs
  · intro ⟨h1, h2⟩
    rw [allocate_of_success s size align h1 h2]
    rfl

theorem allocate_eq_some (s s1 : BumpAllocator) (size align addr : Nat)
    (h : s.allocate size align = (some addr, s1)) :
    addr = roundUpToPowerOfTwo s.next_allocation_at_pointer align ∧
    s1 = { s with
            most_recent_allocation_pointer := addr
            next_allocation_at_pointer := addr + size } := by
  have hs : ((s.allocate size align).1).isSome = true := by rw [h]; rfl
  rw [allocate_isSome_iff] at hs
  rw [allocate_of_success s size align hs.1 hs.2] at h
  have h1 := congrArg Prod.fst h
  have h2 := congrArg Prod.snd h
  simp at h1 h2
  constructor
  · omega
  · rw [← h2, h1]

theorem allocation_ends_eq_some (s : BumpAllocator) (size base e : Nat)
    (h : allocation_ends_at_pointer s size base = some e) :
    e = base + size ∧ base + size < USIZE ∧ e ≤ s.ends_at_pointer := by
  unfold allocation_ends_at_pointer checkedAdd at h
  by_cases h1 : base + size < USIZE
  · rw [if_pos h1] at h
    dsimp only at h
    by_cases h2 : base + size > s.ends_at_pointer
    · rw [if_pos h2] at h
      exact absurd h (by simp)
    · rw [if_neg h2] at h
      have h3 := Option.some.inj h
      exact ⟨h3.symm, h1, by omega⟩
  · rw [if_neg h1] at h
    dsimp only at h
    exact absurd h (by simp)

theorem growing_not_most_recent (s : BumpAllocator) (ns al cs addr : Nat)
    (h : addr ≠ s.most_recent_allocation_pointer) :
    s.growing_reallocate ns al cs addr = s.allocate ns al := by
  unfold BumpAllocator.growing_reallocate
  rw [if_neg h]
  rcases hh : s.allocate ns al with ⟨r, s1⟩
  cases r <;> rfl

theorem allocate_ends (s : BumpAllocator) (size align : Nat) :
    ((s.allocate size align).2).ends_at_pointer = s.ends_at_pointer ∧
    ((s.allocate size align).2).memory_source_size = s.memory_source_size := by
  unfold BumpAllocator.allocate
  dsimp only
  split <;> simp

theorem step_ends (s : BumpAllocator) (op : Op) :
    (step s op).ends_at_pointer = s.ends_at_pointer ∧
    (step s op).memory_source_size = s.memory_source_size := by
  cases op with
  | allocate size align => exact allocate_ends s size align
  | deallocate size align addr =>
    simp only [step, BumpAllocator.deallocate]
    by_cases h : addr = s.most_recent_allocation_pointer
    · rw [if_pos h]; exact ⟨rfl, rfl⟩
    · rw [if_neg h]; exact ⟨rfl, rfl⟩
  | shrinking ns al cs addr =>
    simp only [step, BumpAllocator.shrinking_reallocate]
    by_cases h : addr = s.most_recent_allocation_pointer
    · rw [if_pos h]; exact ⟨rfl, rfl⟩
    · rw [if_neg h]; exact ⟨rfl, rfl⟩
  | growing ns al cs addr =>
    simp only [step]
    by_cases h : addr = s.most_recent_allocation_pointer
    · unfold BumpAllocator.growing_reallocate
      rw [if_pos h]
      rcases allocation_ends_at_pointer s ns addr with _ | e <;> exact ⟨rfl, rfl⟩
    · rw [growing_not_most_recent s ns al cs addr h]
      exact allocate_ends s ns al

theorem run_ends (ops : List Op) (s : BumpAllocator) :
    (run s ops).ends_at_pointer = s.ends_at_pointer ∧
    (run s ops).memory_source_size = s.memory_source_size := by
  induction ops generalizing s with
  | nil => exact ⟨rfl, rfl⟩
  | cons op rest ih =>
    have h1 := step_ends s op
    have h2 := ih (step s op)
    exact ⟨h2.1.trans h1.1, h2.2.trans h1.2⟩

theorem stateInv_allocate (s : BumpAllocator) (size align : Nat)
    (hinv : StateInv s) (hal : 0 < align)
    (hs : ((s.allocate size align).1).isSome = true) :
    StateInv ((s.allocate size align).2) := by
  rw [allocate_isSome_iff] at hs
  rw [allocate_of_success s size align hs.1 hs.2]
  obtain ⟨i1, i2, i3, i4⟩ := hinv
  have hr := le_roundUpToPowerOfTwo s.next_allocation_at_pointer hal
  unfold StateInv BumpAllocator.allocations_start_from at *
  dsimp only
  omega

theorem stateInv_step (s : BumpAllocator) (op : Op)
    (hinv : StateInv s) (hop : ValidOp s op) : StateInv (step s op) := by
  obtain ⟨hpre, hsucc⟩ := hop
  cases op with
  | allocate size align =>
    obtain ⟨hsz, ⟨k, hk⟩, hle⟩ := hpre
    have hal : 0 < align := by subst hk; exact pow_pos (by norm_num) k
    exact stateInv_allocate s size align hinv hal hsucc
  | deallocate size align addr =>
    obtain ⟨i1, i2, i3, i4⟩ := hinv
    unfold BumpAllocator.allocations_start_from at i1 i3
    simp only [step, BumpAllocator.deallocate]
    by_cases h : addr = s.most_recent_allocation_pointer
    · rw [if_pos h]
      unfold StateInv BumpAllocator.allocations_start_from
      dsimp only
      omega
    · rw [if_neg h]
      unfold StateInv BumpAllocator.allocations_start_from
      omega
  | shrinking ns al cs addr =>
    obtain ⟨hsa, hnscs, hspan⟩ := hpre
    obtain ⟨i1, i2, i3, i4⟩ := hinv
    unfold BumpAllocator.allocations_start_from at i1 i3
    simp only [step, BumpAllocator.shrinking_reallocate]
    by_cases h : addr = s.most_recent_allocation_pointer
    · have hcs := hspan h
      rw [if_pos h]
      unfold StateInv BumpAllocator.allocations_start_from
      dsimp only
      omega
    · rw [if_neg h]
      unfold StateInv BumpAllocator.allocations_start_from
      dsimp only
      omega
  | growing ns al cs addr =>
    have hsucc2 : ((s.growing_reallocate ns al cs addr).1).isSome = true := hsucc
    simp only [step]
    by_cases h : addr = s.most_recent_allocation_pointer
    · unfold BumpAllocator.growing_reallocate at hsucc2 ⊢
      rw [if_pos h] at hsucc2 ⊢
      rcases hh : allocation_ends_at_pointer s ns addr with _ | e
      · rw [hh] at hsucc2
        simp at hsucc2
      · obtain ⟨he, hlt, hends⟩ := allocation_ends_eq_some s ns addr e hh
        obtain ⟨i1, i2, i3, i4⟩ := hinv
        unfold BumpAllocator.allocations_start_from at i1 i3
        unfold StateInv BumpAllocator.allocations_start_from
        dsimp only
        omega
    · rw [growing_not_most_recent s ns al cs addr h] at hsucc2 ⊢
      obtain ⟨hsz, ⟨k, hk⟩, hle⟩ := hpre
      have hal : 0 < al := by subst hk; exact pow_pos (by norm_num) k
      exact stateInv_allocate s ns al hinv hal hsucc2

theorem stateInv_run (ops : List Op) :
    ∀ s : BumpAllocator, StateInv s → ValidTrace s ops → StateInv (run s ops) := by
  induction ops with
  | nil => intro s h _; exact h
  | cons op rest ih =>
    intro s h ht
    cases ht with
    | cons hop htrest =>
      exact ih (step s op) (stateInv_step s op h hop) htrest

theorem stateInv_new (start msize : Nat) :
    StateInv (BumpAllocator.new start msize) := by
  unfold StateInv BumpAllocator.new BumpAllocator.allocations_start_from
  dsimp only
  omega

theorem allocate_all_spec :
    ∀ (calls : List (Nat × Nat)) (s : BumpAllocator) (pairs : List (Nat × Nat))
      (s2 : BumpAllocator),
    (∀ c ∈ calls, 0 < c.2) →
    allocate_all s calls = some (pairs, s2) →
    s.next_allocation_at_pointer ≤ s2.next_allocation_at_pointer ∧
    (∀ p ∈ pairs, s.next_allocation_at_pointer ≤ p.1 ∧
      p.1 + p.2 ≤ s2.next_allocation_at_pointer) ∧
    pairs.Pairwise (fun p q => p.1 + p.2 ≤ q.1) ∧
    List.Forall₂ (fun c p => p.2 = c.1 ∧ c.2 ∣ p.1) calls pairs := by
  intro calls
  induction calls with
  | nil =>
    intro s pairs s2 hpos h
    simp only [allocate_all, Option.some.injEq, Prod.mk.injEq] at h
    obtain ⟨h1, h2⟩ := h
    subst h1
    subst h2
    exact ⟨le_refl _, by simp, List.Pairwise.nil, List.Forall₂.nil⟩
  | cons c rest ih =>
    intro s pairs s2 hpos h
    obtain ⟨size, align⟩ := c
    unfold allocate_all at h
    rcases hall : s.allocate size align with ⟨r, s1⟩
    rw [hall] at h
    cases r with
    | none => simp at h
    | some addr =>
      dsimp only at h
      rcases hrest : allocate_all s1 rest with _ | q
      · rw [hrest] at h
        simp at h
      · obtain ⟨pairs1, s3⟩ := q
        rw [hrest] at h
        simp only [Option.some.injEq, Prod.mk.injEq] at h
        obtain ⟨hp, hs⟩ := h
        subst hp
        subst hs
        obtain ⟨haddr, hs1⟩ := allocate_eq_some s s1 size align addr hall
        have hal : 0 < align := hpos (size, align) (List.mem_cons_self _ _)
        have hposrest : ∀ c ∈ rest, 0 < c.2 := fun c hc =>
          hpos c (List.mem_cons_of_mem _ hc)
        obtain ⟨ih1, ih2, ih3, ih4⟩ := ih s1 pairs1 s3 hposrest hrest
        have hge : s.next_allocation_at_pointer ≤ addr := by
          rw [haddr]
          exact le_roundUpToPowerOfTwo s.next_allocation_at_pointer hal
        have hs1next : s1.next_allocation_at_pointer = addr + size := by
          rw [hs1]
        refine ⟨?_, ?_, ?_, ?_⟩
        · omega
        · intro p hp
          rcases List.mem_cons.1 hp with hhd | htl
          · subst hhd
            dsimp only
            omega
          · have := ih2 p htl
            omega
        · refine List.Pairwise.cons ?_ ih3
          intro q hq
          have := (ih2 q hq).1
          dsimp only
          omega
        · refine List.Forall₂.cons ⟨rfl, ?_⟩ ih4
          rw [haddr]
          exact dvd_roundUpToPowerOfTwo s.next_allocation_at_pointer align

theorem nextPow2Aux_spec :
    ∀ (fuel j a : Nat), a ≤ 2 ^ (j + fuel) →
    ∃ k, j ≤ k ∧ nextPow2Aux fuel a (2 ^ j) = 2 ^ k ∧ a ≤ 2 ^ k ∧
      (j < k → 2 ^ (k - 1) < a) := by
  intro fuel
  induction fuel with
  | zero =>
    intro j a ha
    exact ⟨j, le_refl j, rfl, by simpa using ha,
      fun hc => absurd hc (lt_irrefl j)⟩
  | succ fuel ih =>
    intro j a ha
    by_cases h : a ≤ 2 ^ j
    · refine ⟨j, le_refl j, ?_, h, fun hc => absurd hc (lt_irrefl j)⟩
      unfold nextPow2Aux
      rw [if_pos h]
    · have h2 : 2 * 2 ^ j = 2 ^ (j + 1) := by ring
      have ha2 : a ≤ 2 ^ (j + 1 + fuel) := by
        have he : j + 1 + fuel = j + (fuel + 1) := by omega
        rw [he]
        exact ha
      obtain ⟨k, hk1, hk2, hk3, hk4⟩ := ih (j + 1) a ha2
      refine ⟨k, by omega, ?_, hk3, ?_⟩
      · unfold nextPow2Aux
        rw [if_neg h, h2]
        exact hk2
      · intro hjk
        by_cases hkj : k = j + 1
        · subst hkj
          simpa using Nat.lt_of_not_le h
        · exact hk4 (by omega)

theorem allocate_none_state (s : BumpAllocator) (size align : Nat)
    (h : (s.allocate size align).1 = none) :
    (s.allocate size align).2 =
      { s with most_recent_allocation_pointer :=
          roundUpToPowerOfTwo s.next_allocation_at_pointer align } := by
  by_cases h1 : roundUpToPowerOfTwo s.next_allocation_at_pointer align + size < USIZE
  · by_cases h2 : roundUpToPowerOfTwo s.next_allocation_at_pointer align + size ≤
        s.ends_at_pointer
    · rw [allocate_of_success s size align h1 h2] at h
      simp at h
    · rw [allocate_of_fail s size align (Or.inr (by omega))]
  · rw [allocate_of_fail s size align (Or.inl (by omega))]

/-! ## Claim theorems -/

/-- C1, counterexample: from the reachable state reached by one successful
`allocate(2, 1)` on a 4-byte region starting at address 1, the failing call
`allocate(4, 4)` returns an allocation error yet does NOT leave the
allocator state exactly as it was: `most_recent_allocation_pointer` has
been overwritten. -/
theorem C1_counterexample :
    ((run (BumpAllocator.new 1 4) [Op.allocate 2 1]).allocate 4 4).1 = none ∧
    ((run (BumpAllocator.new 1 4) [Op.allocate 2 1]).allocate 4 4).2 ≠
      run (BumpAllocator.new 1 4) [Op.allocate 2 1] := by
  decide

/-- C1, amended: when `allocate` (or the non-in-place path of
`growing_reallocate`, which delegates to `allocate`) returns an allocation
error, `next_allocation_at_pointer` and `ends_at_pointer` are exactly what
they were before the call, but `most_recent_allocation_pointer` has been
set to the alignment-rounded cursor value; the in-place path of
`growing_reallocate` leaves the entire state unchanged on failure. -/
theorem C1_failure_atomicity_amended (s : BumpAllocator)
    (size align cs addr : Nat) :
    ((s.allocate size align).1 = none →
      (s.allocate size align).2 =
        { s with most_recent_allocation_pointer :=
            roundUpToPowerOfTwo s.next_allocation_at_pointer align }) ∧
    (addr ≠ s.most_recent_allocation_pointer →
      (s.growing_reallocate size align cs addr).1 = none →
      (s.growing_reallocate size align cs addr).2 =
        { s with most_recent_allocation_pointer :=
            roundUpToPowerOfTwo s.next_allocation_at_pointer align }) ∧
    (addr = s.most_recent_allocation_pointer →
      (s.growing_reallocate size align cs addr).1 = none →
      (s.growing_reallocate size align cs addr).2 = s) := by
  refine ⟨fun h => allocate_none_state s size align h, ?_, ?_⟩
  · intro hne h
    rw [growing_not_most_recent s size align cs addr hne] at h ⊢
    exact allocate_none_state s size align h
  · intro heq h
    unfold BumpAllocator.growing_reallocate at h ⊢
    rw [if_pos heq] at h ⊢
    rcases hh : allocation_ends_at_pointer s size addr with _ | e
    · rfl
    · rw [hh] at h
      simp at h

/-- C1 witness: the three failure shapes of the amended statement at
concrete inputs. -/
theorem C1_failure_atomicity_amended_witness :
    ((BumpAllocator.mk 1 3 5 4).allocate 4 4).2 =
      { BumpAllocator.mk 1 3 5 4 with
          most_recent_allocation_pointer := roundUpToPowerOfTwo 3 4 } ∧
    ((BumpAllocator.mk 1 1 5 4).growing_reallocate 100 1 1 3).2 =
      { BumpAllocator.mk 1 1 5 4 with
          most_recent_allocation_pointer := roundUpToPowerOfTwo 1 1 } ∧
    ((BumpAllocator.mk 1 1 5 4).growing_reallocate 100 1 1 1).2 =
      BumpAllocator.mk 1 1 5 4 :=
  ⟨(C1_failure_atomicity_amended (BumpAllocator.mk 1 3 5 4) 4 4 1 3).1
      (by decide),
   (C1_failure_atomicity_amended (BumpAllocator.mk 1 1 5 4) 100 1 1 3).2.1
      (by decide) (by decide),
   (C1_failure_atomicity_amended (BumpAllocator.mk 1 1 5 4) 100 1 1 1).2.2
      (by decide) (by decide)⟩

/-- C2, counterexample: a two-call sequence meeting the spec's
size/alignment preconditions (sizes 2 and 4, alignments 1 and 4) from a
fresh 4-byte allocator leaves a state violating the invariants, because
the second (failing) `allocate` sets `most_recent_allocation_pointer`
past the cursor. -/
theorem C2_counterexample :
    PreTrace (BumpAllocator.new 1 4) [Op.allocate 2 1, Op.allocate 4 4] ∧
    ¬ StateInv (run (BumpAllocator.new 1 4) [Op.allocate 2 1, Op.allocate 4 4]) := by
  constructor
  · refine PreTrace.cons ?_ (PreTrace.cons ?_ (PreTrace.nil _))
    · exact ⟨by norm_num, ⟨0, rfl⟩, by norm_num⟩
    · exact ⟨by norm_num, ⟨2, rfl⟩, by norm_num⟩
  · decide

/-- C2, amended: the two state invariants hold after every sequence of
calls meeting the spec's preconditions in which every `allocate` and
`growing_reallocate` succeeds (a failing call can break invariant 2, as
the counterexample shows). -/
theorem C2_state_invariants_amended (start msize : Nat) (ops : List Op)
    (ht : ValidTrace (BumpAllocator.new start msize) ops) :
    StateInv (run (BumpAllocator.new start msize) ops) :=
  stateInv_run ops (BumpAllocator.new start msize) (stateInv_new start msize) ht

/-- C2 witness: the amended statement on a concrete successful trace. -/
theorem C2_state_invariants_amended_witness :
    StateInv (run (BumpAllocator.new 1 4) [Op.allocate 2 1, Op.deallocate 2 1 1]) := by
  apply C2_state_invariants_amended
  refine ValidTrace.cons ⟨⟨by norm_num, ⟨0, rfl⟩, by norm_num⟩, by decide⟩ ?_
  refine ValidTrace.cons ⟨⟨by norm_num, ⟨0, rfl⟩, by norm_num⟩, trivial⟩ ?_
  exact ValidTrace.nil _

/-- C3, counterexample: at the non-zero u32 value 2^31 + 1 the function
returns 0 (the wrapped overflow result of the standard library call), which
is not a power of two greater than or equal to the argument. -/
theorem C3_counterexample :
    next_power_of_two (2 ^ 31 + 1) = 0 ∧
    ¬ (2 ^ 31 + 1 ≤ next_power_of_two (2 ^ 31 + 1)) := by
  decide

/-- C3, amended: for every non-zero u32 value a with a ≤ 2^31 (so that the
result is representable), `next_power_of_two(a)` returns the smallest power
of two greater than or equal to a. -/
theorem C3_next_power_of_two_amended (a : Nat) (h1 : 0 < a) (h2 : a ≤ 2 ^ 31) :
    (∃ k, next_power_of_two a = 2 ^ k) ∧
    a ≤ next_power_of_two a ∧
    ∀ m, a ≤ 2 ^ m → next_power_of_two a ≤ 2 ^ m := by
  obtain ⟨k, hk0, hkeq, hka, hkmin⟩ :=
    nextPow2Aux_spec 32 0 a (le_trans h2 (by norm_num))
  have hmin : ∀ m, a ≤ 2 ^ m → 2 ^ k ≤ 2 ^ m := by
    intro m hm
    by_cases hk : k = 0
    · subst hk
      simpa using Nat.one_le_two_pow
    · have hlt : 2 ^ (k - 1) < a := hkmin (by omega)
      have hlt2 : 2 ^ (k - 1) < 2 ^ m := lt_of_lt_of_le hlt hm
      have hkm : k - 1 < m := (Nat.pow_lt_pow_iff_right (by norm_num)).1 hlt2
      exact Nat.pow_le_pow_right (by norm_num) (by omega)
  have hk31 : k ≤ 31 := (Nat.pow_le_pow_iff_right (by norm_num)).1 (hmin 31 h2)
  have hmod : u32_next_power_of_two a = 2 ^ k := by
    unfold u32_next_power_of_two
    rw [show nextPow2Aux 32 a 1 = 2 ^ k from hkeq]
    apply Nat.mod_eq_of_lt
    have hb : (2:Nat) ^ k ≤ 2 ^ 31 := Nat.pow_le_pow_right (by norm_num) hk31
    have hc : (2:Nat) ^ 31 < 2 ^ 32 := by norm_num
    omega
  unfold next_power_of_two
  rw [hmod]
  exact ⟨⟨k, rfl⟩, hka, hmin⟩

/-- C3 witness: the amended statement at a = 5 (next power of two is 8). -/
theorem C3_next_power_of_two_amended_witness :
    (∃ k, next_power_of_two 5 = 2 ^ k) ∧
    5 ≤ next_power_of_two 5 ∧
    ∀ m, 5 ≤ 2 ^ m → next_power_of_two 5 ≤ 2 ^ m :=
  C3_next_power_of_two_amended 5 (by norm_num) (by norm_num)

/-- C4: every sequence of successful `allocate` calls with non-zero sizes
and non-zero power-of-two alignments at most 4096 yields pairwise-disjoint
address intervals, non-decreasing addresses, and addresses aligned to each
call's alignment. -/
theorem C4_allocate_sequence (start msize : Nat) (calls : List (Nat × Nat))
    (pairs : List (Nat × Nat)) (s2 : BumpAllocator)
    (hpre : ∀ c ∈ calls, 0 < c.1 ∧ (∃ k, c.2 = 2 ^ k) ∧ c.2 ≤ 4096)
    (hrun : allocate_all (BumpAllocator.new start msize) calls
      = some (pairs, s2)) :
    pairs.Pairwise (fun p q => p.1 + p.2 ≤ q.1 ∨ q.1 + q.2 ≤ p.1) ∧
    (pairs.map Prod.fst).Pairwise (fun a b => a ≤ b) ∧
    List.Forall₂ (fun c p => p.2 = c.1 ∧ p.1 % c.2 = 0) calls pairs := by
  have hpos : ∀ c ∈ calls, 0 < c.2 := by
    intro c hc
    obtain ⟨-, ⟨k, hk⟩, -⟩ := hpre c hc
    rw [hk]
    exact pow_pos (by norm_num) k
  obtain ⟨-, -, h3, h4⟩ := allocate_all_spec calls _ pairs s2 hpos hrun
  refine ⟨?_, ?_, ?_⟩
  · exact h3.imp (fun h => Or.inl h)
  · rw [List.pairwise_map]
    exact h3.imp (fun h => by omega)
  · refine List.Forall₂.imp ?_ h4
    intro c p hcp
    exact ⟨hcp.1, Nat.mod_eq_zero_of_dvd hcp.2⟩

/-- C4 witness: two successful calls (size 2 align 1, then size 3 align 2)
on a 10-byte region starting at address 1 return addresses 1 and 4. -/
theorem C4_allocate_sequence_witness :
    ([((1:Nat), (2:Nat)), (4, 3)]).Pairwise
      (fun p q => p.1 + p.2 ≤ q.1 ∨ q.1 + q.2 ≤ p.1) ∧
    (([((1:Nat), (2:Nat)), (4, 3)]).map Prod.fst).Pairwise (fun a b => a ≤ b) ∧
    List.Forall₂ (fun c p => p.2 = c.1 ∧ p.1 % c.2 = 0)
      [((2:Nat), (1:Nat)), (3, 2)] [(1, 2), (4, 3)] := by
  apply C4_allocate_sequence 1 10 [(2, 1), (3, 2)] [(1, 2), (4, 3)]
    (BumpAllocator.mk 4 7 11 10)
  · intro c hc
    simp only [List.mem_cons, List.not_mem_nil, or_false] at hc
    rcases hc with rfl | rfl
    · exact ⟨by norm_num, ⟨0, rfl⟩, by norm_num⟩
    · exact ⟨by norm_num, ⟨1, rfl⟩, by norm_num⟩
  · decide

/-- C5: whenever the alignment-rounded cursor plus the requested size
overflows the address range or exceeds `ends_at_pointer`, `allocate`
returns an allocation error and the cursor `next_allocation_at_pointer`
is unchanged. -/
theorem C5_failed_allocate_cursor_unchanged (s : BumpAllocator)
    (size align : Nat)
    (h : USIZE ≤ roundUpToPowerOfTwo s.next_allocation_at_pointer align + size ∨
      s.ends_at_pointer <
        roundUpToPowerOfTwo s.next_allocation_at_pointer align + size) :
    (s.allocate size align).1 = none ∧
    ((s.allocate size align).2).next_allocation_at_pointer =
      s.next_allocation_at_pointer := by
  rw [allocate_of_fail s size align h]
  exact ⟨rfl, rfl⟩

/-- C5 witness: a 100-byte request on a fresh 4-byte region fails and
leaves the cursor unchanged. -/
theorem C5_failed_allocate_cursor_unchanged_witness :
    ((BumpAllocator.new 1 4).allocate 100 1).1 = none ∧
    (((BumpAllocator.new 1 4).allocate 100 1).2).next_allocation_at_pointer =
      (BumpAllocator.new 1 4).next_allocation_at_pointer :=
  C5_failed_allocate_cursor_unchanged (BumpAllocator.new 1 4) 100 1
    (Or.inr (by decide))

/-- C6: `shrinking_reallocate` never fails and always returns its input
address; when the address is the most recent allocation it sets the cursor
to address + new_size, otherwise it leaves the state unchanged. -/
theorem C6_shrinking_reallocate_total (s : BumpAllocator)
    (ns al cs addr : Nat) :
    (s.shrinking_reallocate ns al cs addr).1 = some addr ∧
    (s.shrinking_reallocate ns al cs addr).2 =
      (if addr = s.most_recent_allocation_pointer then
        { s with next_allocation_at_pointer := addr + ns }
      else s) := by
  unfold BumpAllocator.shrinking_reallocate
  by_cases h : addr = s.most_recent_allocation_pointer <;> simp [h]

/-- C7: `deallocate` rewinds the cursor to the address exactly when the
address is the most recent allocation, and otherwise changes nothing; it
returns no error (it is a total function on states). -/
theorem C7_deallocate_rewinds_cursor (s : BumpAllocator)
    (size al addr : Nat) :
    s.deallocate size al addr =
      (if addr = s.most_recent_allocation_pointer then
        { s with next_allocation_at_pointer := addr }
      else s) := by
  unfold BumpAllocator.deallocate
  by_cases h : addr = s.most_recent_allocation_pointer <;> simp [h]

/-- C8: after any sequence of calls on an allocator built over a region
obtained at `start` with size `msize`, destruction releases exactly
(msize, start): the original size and the original start address. -/
theorem C8_drop_releases_original_block (start msize : Nat) (ops : List Op) :
    (run (BumpAllocator.new start msize) ops).drop_release_args =
      (msize, start) := by
  have h := run_ends ops (BumpAllocator.new start msize)
  unfold BumpAllocator.drop_release_args BumpAllocator.allocations_start_from
  rw [h.1, h.2]
  unfold BumpAllocator.new
  dsimp only
  rw [Nat.add_sub_cancel]

/-- C9: `shrinking_reallocate` performs no bound or overflow check — on the
most recent allocation the cursor always becomes address + new_size, and
there is a reachable state and a call with new_size exceeding the remaining
space for which the call succeeds and leaves the cursor strictly past
`ends_at_pointer`. -/
theorem C9_shrinking_no_bound_check :
    (∀ (s : BumpAllocator) (ns al cs addr : Nat),
      addr = s.most_recent_allocation_pointer →
      (s.shrinking_reallocate ns al cs addr).1 = some addr ∧
      ((s.shrinking_reallocate ns al cs addr).2).next_allocation_at_pointer =
        addr + ns) ∧
    (∃ (start msize : Nat) (ops : List Op) (ns al cs addr : Nat),
      addr = (run (BumpAllocator.new start msize) ops).most_recent_allocation_pointer ∧
      (run (BumpAllocator.new start msize) ops).ends_at_pointer < addr + ns ∧
      ((run (BumpAllocator.new start msize) ops).shrinking_reallocate
        ns al cs addr).1 = some addr ∧
      (run (BumpAllocator.new start msize) ops).ends_at_pointer <
        (((run (BumpAllocator.new start msize) ops).shrinking_reallocate
          ns al cs addr).2).next_allocation_at_pointer) := by
  constructor
  · intro s ns al cs addr h
    unfold BumpAllocator.shrinking_reallocate
    rw [if_pos h]
    exact ⟨rfl, rfl⟩
  · exact ⟨1, 4, [], 100, 1, 1, 1, by decide, by decide, by decide, by decide⟩

/-- C9 witness: the universal part at a concrete fresh allocator, shrinking
the most recent allocation to a size far past the region's end. -/
theorem C9_shrinking_no_bound_check_witness :
    ((BumpAllocator.new 1 4).shrinking_reallocate 100 1 1 1).1 = some 1 ∧
    (((BumpAllocator.new 1 4).shrinking_reallocate 100 1 1 1).2).next_allocation_at_pointer =
      1 + 100 :=
  C9_shrinking_no_bound_check.1 (BumpAllocator.new 1 4) 100 1 1 1 (by decide)

/-- C10: the effect of `deallocate` does not depend on its size and
alignment arguments, and `deallocate` is idempotent at a fixed address. -/
theorem C10_deallocate_ignores_size_alignment (s : BumpAllocator)
    (sz1 al1 sz2 al2 addr : Nat) :
    s.deallocate sz1 al1 addr = s.deallocate sz2 al2 addr ∧
    (s.deallocate sz1 al1 addr).deallocate sz2 al2 addr =
      s.deallocate sz1 al1 addr := by
  constructor
  · rfl
  · by_cases h : addr = s.most_recent_allocation_pointer
    · subst h
      simp [BumpAllocator.deallocate]
    · simp [BumpAllocator.deallocate, h]
